import Mathlib

/-!
# Verification of the chess-ai search/evaluation engine

Shallow embedding of `src/engine/engine.js`.  The rules engine (chess.js) is
an external collaborator: it is modelled abstractly by the structure `CRules`
below, exactly mirroring the surface the engine code calls
(`isCheckmate`, `isDraw`, `isGameOver`, `turn`, `board`, `moves`, threefold
probing, `move`/`undo`).  The engine's own functions (`evaluate`,
`orderMovesSafe`, `minimaxSafe`, `chooseMoveWithRandomness`, `findBestMove`,
`findBestMoveB`) are translated line by line from the source.

Mutation of the shared position object is modelled by explicit state passing:
a `Game` value carries the current position plus the undo stack, and every
stateful engine function takes and returns it.  `Date.now()` is modelled by
an oracle `Clock` (an arbitrary stream of timestamps, one per call).
`Math.random()` is modelled by an explicit rational draw `rand` in `[0,1)`.
-/

/-- Side colour, chess.js `"w"` / `"b"`. -/
inductive Color where
  | w : Color
  | b : Color
  deriving DecidableEq, Repr

/-- Piece type, chess.js `"p" | "n" | "b" | "r" | "q" | "k"`. -/
inductive PieceT where
  | p : PieceT
  | n : PieceT
  | b : PieceT
  | r : PieceT
  | q : PieceT
  | k : PieceT
  deriving DecidableEq, Repr

/-- A square's occupant as returned by `game.board()`: piece type and colour. -/
structure CPiece where
  ptype : PieceT
  color : Color
  deriving DecidableEq, Repr

/-- A verbose chess.js move record as consumed by the engine: origin,
destination, moving piece type, optional captured piece type, optional
promotion piece type and the SAN string.  Per the collaborator contract the
moving piece type is always present on verbose moves. -/
structure Move where
  fromSq : String
  toSq : String
  piece : PieceT
  captured : Option PieceT
  promotion : Option PieceT
  san : String
  deriving DecidableEq, Repr

/-- `MATERIAL` table from the source. -/
def MATERIAL : PieceT → Int
  | .p => 100
  | .n => 320
  | .b => 330
  | .r => 500
  | .q => 900
  | .k => 20000

/-- `MATE_SCORE` from the source. -/
def MATE_SCORE : Int := 100000

/-- `PST_P` pawn piece-square table from the source. -/
def PST_P : List (List Int) :=
  [[0, 0, 0, 0, 0, 0, 0, 0],
   [50, 50, 50, 50, 50, 50, 50, 50],
   [10, 10, 20, 30, 30, 20, 10, 10],
   [5, 5, 10, 25, 25, 10, 5, 5],
   [0, 0, 0, 20, 20, 0, 0, 0],
   [5, -5, -10, 0, 0, -10, -5, 5],
   [5, 10, 10, -20, -20, 10, 10, 5],
   [0, 0, 0, 0, 0, 0, 0, 0]]

/-- `PST_N` knight piece-square table from the source. -/
def PST_N : List (List Int) :=
  [[-50, -40, -30, -30, -30, -30, -40, -50],
   [-40, -20, 0, 5, 5, 0, -20, -40],
   [-30, 5, 10, 15, 15, 10, 5, -30],
   [-30, 0, 15, 20, 20, 15, 0, -30],
   [-30, 5, 15, 20, 20, 15, 5, -30],
   [-30, 0, 10, 15, 15, 10, 0, -30],
   [-40, -20, 0, 0, 0, 0, -20, -40],
   [-50, -40, -30, -30, -30, -30, -40, -50]]

/-- `PST_B` bishop piece-square table from the source. -/
def PST_B : List (List Int) :=
  [[-20, -10, -10, -10, -10, -10, -10, -20],
   [-10, 0, 0, 0, 0, 0, 0, -10],
   [-10, 0, 5, 10, 10, 5, 0, -10],
   [-10, 5, 5, 10, 10, 5, 5, -10],
   [-10, 0, 10, 10, 10, 10, 0, -10],
   [-10, 10, 10, 10, 10, 10, 10, -10],
   [-10, 5, 0, 0, 0, 0, 5, -10],
   [-20, -10, -10, -10, -10, -10, -10, -20]]

/-- `PST_R` rook piece-square table from the source. -/
def PST_R : List (List Int) :=
  [[0, 0, 0, 0, 0, 0, 0, 0],
   [5, 10, 10, 10, 10, 10, 10, 5],
   [-5, 0, 0, 0, 0, 0, 0, -5],
   [-5, 0, 0, 0, 0, 0, 0, -5],
   [-5, 0, 0, 0, 0, 0, 0, -5],
   [-5, 0, 0, 0, 0, 0, 0, -5],
   [-5, 0, 0, 0, 0, 0, 0, -5],
   [0, 0, 0, 5, 5, 0, 0, 0]]

/-- `PST_Q` queen piece-square table from the source. -/
def PST_Q : List (List Int) :=
  [[-20, -10, -10, -5, -5, -10, -10, -20],
   [-10, 0, 0, 0, 0, 0, 0, -10],
   [-10, 0, 5, 5, 5, 5, 0, -10],
   [-5, 0, 5, 5, 5, 5, 0, -5],
   [0, 0, 5, 5, 5, 5, 0, -5],
   [-10, 5, 5, 5, 5, 5, 0, -10],
   [-10, 0, 5, 0, 0, 0, 0, -10],
   [-20, -10, -10, -5, -5, -10, -10, -20]]

/-- `PST_K` king piece-square table from the source. -/
def PST_K : List (List Int) :=
  [[-30, -40, -40, -50, -50, -40, -40, -30],
   [-30, -40, -40, -50, -50, -40, -40, -30],
   [-30, -40, -40, -50, -50, -40, -40, -30],
   [-30, -40, -40, -50, -50, -40, -40, -30],
   [-20, -30, -30, -40, -40, -30, -30, -20],
   [-10, -20, -20, -20, -20, -20, -20, -10],
   [20, 20, 0, 0, 0, 0, 20, 20],
   [20, 30, 10, 0, 0, 10, 30, 20]]

/-- `PST` dispatch table from the source (`{ p: PST_P, ... }`).  It is total,
so the defensive `if (table)` in `evaluate` is always taken. -/
def PST : PieceT → List (List Int)
  | .p => PST_P
  | .n => PST_N
  | .b => PST_B
  | .r => PST_R
  | .q => PST_Q
  | .k => PST_K

/-- `table[r][c]` lookup; the engine only consults indices `0..7`, where the
tables are fully populated, so the out-of-range default is never observable. -/
def tableAt (t : List (List Int)) (r c : Nat) : Int :=
  (t.getD r []).getD c 0

/-- The collaborator's threefold-repetition surface: the newer method name,
the older method name, or neither (version-skew dynamic dispatch). -/
inductive ThreefoldApi (Pos : Type) where
  | newer : (Pos → Bool) → ThreefoldApi Pos
  | older : (Pos → Bool) → ThreefoldApi Pos
  | missing : ThreefoldApi Pos

/-- Abstract rules collaborator (chess.js).  `movesVerbose` returns `none`
when enumeration throws or yields a falsy value.  `applyMove` is the
in-place mutation `game.move(mv)` restricted to the moves the engine replays,
which the collaborator contract guarantees to be legal (the engine only ever
replays moves it obtained from `moves({verbose:true})`). `fen` is the
serialized form of a position. -/
structure CRules (Pos : Type) where
  isCheckmate : Pos → Bool
  isDraw : Pos → Bool
  isGameOver : Pos → Bool
  turn : Pos → Color
  board : Pos → Nat → Nat → Option CPiece
  movesVerbose : Pos → Option (List Move)
  applyMove : Pos → Move → Pos
  threefoldApi : ThreefoldApi Pos
  fen : Pos → String

/-- `isThreefold(game)` from the source: probe the newer chess.js method
name, then the older one, defaulting to `false` when neither exists. -/
def isThreefold {Pos : Type} (R : CRules Pos) (p : Pos) : Bool :=
  match R.threefoldApi with
  | .newer f => f p
  | .older f => f p
  | .missing => false

/-- `safeMoves(game)` from the source:
`try { return game.moves({ verbose: true }) || []; } catch { return []; }`. -/
def safeMoves {Pos : Type} (R : CRules Pos) (p : Pos) : List Move :=
  match R.movesVerbose p with
  | some ms => ms
  | none => []

/-- `getValue(p)` from the source: `MATERIAL[p] || 0`. -/
def getValue : Option PieceT → Int
  | some pt => MATERIAL pt
  | none => 0

/-- `evaluate(game)` from the source: mate sentinel on checkmate, `0` on
draw/threefold, otherwise material + piece-square sum over all 64 squares
(white-mirrored tables for black) plus `±2 ×` the side-to-move's legal move
count. -/
def evaluate {Pos : Type} (R : CRules Pos) (p : Pos) : Int :=
  if R.isCheckmate p then
    if R.turn p = Color.w then -MATE_SCORE else MATE_SCORE
  else if R.isDraw p || isThreefold R p then 0
  else
    let boardScore :=
      (List.range 8).foldl (fun acc r =>
        (List.range 8).foldl (fun acc2 c =>
          match R.board p r c with
          | none => acc2
          | some pc =>
            let base := MATERIAL pc.ptype
            let pst : Int :=
              if pc.color = Color.w then tableAt (PST pc.ptype) r c
              else -(tableAt (PST pc.ptype) (7 - r) c)
            acc2 + (if pc.color = Color.w then base + pst else -(base + pst)))
          acc) 0
    let mobility : Int := (safeMoves R p).length
    boardScore + (if R.turn p = Color.w then 1 else -1) * mobility * 2

/-- The per-move heuristic score in `orderMovesSafe`:
`(mv.captured ? MATERIAL[mv.captured] * 10 : 0) - (mv.piece ? MATERIAL[mv.piece] : 0)`
(the moving piece is always present on verbose moves, so the second guard is
always taken). -/
def moveOrderScore (mv : Move) : Int :=
  (match mv.captured with
   | some cap => MATERIAL cap * 10
   | none => 0) - MATERIAL mv.piece

/-- Descending order on score-annotated moves: the JS comparator
`(a, b) => b.score - a.score` sorts so that earlier elements have
greater-or-equal scores. -/
def pairGE (a b : Move × Int) : Prop := b.2 ≤ a.2

instance : DecidableRel pairGE := fun a b => (inferInstance : Decidable (b.2 ≤ a.2))

instance : IsTotal (Move × Int) pairGE := ⟨fun a b => le_total b.2 a.2⟩

instance : IsTrans (Move × Int) pairGE := ⟨fun _ _ _ h1 h2 => le_trans h2 h1⟩

/-- `orderMovesSafe(moves)` from the source: annotate each move with its
heuristic score, stable-sort descending by score, strip the annotation.
JS `Array.prototype.sort` is a stable sort, and a stable sort with respect
to a total preorder is unique, so Mathlib's stable `insertionSort` computes
exactly the JS result. -/
def orderMovesSafe (moves : List Move) : List Move :=
  ((moves.map (fun mv => (mv, moveOrderScore mv))).insertionSort pairGE).map Prod.fst

/-- JS numbers as they appear in the search: `-Infinity`, finite, `Infinity`. -/
inductive XScore where
  | negInf : XScore
  | fin : Int → XScore
  | posInf : XScore
  deriving DecidableEq, Repr

/-- JS `<` on search scores. -/
def XScore.ltb : XScore → XScore → Bool
  | .negInf, .negInf => false
  | .negInf, .fin _ => true
  | .negInf, .posInf => true
  | .fin _, .negInf => false
  | .fin a, .fin b => decide (a < b)
  | .fin _, .posInf => true
  | .posInf, _ => false

/-- JS `>=` on search scores (total order, so `a >= b` is `!(a < b)`). -/
def XScore.geb (a b : XScore) : Bool := !(XScore.ltb a b)

/-- The mutable search-budget object `{ nodes, nodeLimit, endTime }` created
per depth iteration.  `endTime = none` models JS `null`. -/
structure SState where
  nodes : Nat
  nodeLimit : Nat
  endTime : Option Nat
  deriving DecidableEq, Repr

/-- JS truthiness of `state.endTime`: `null` and `0` are falsy.  Returns the
deadline when it is truthy. -/
def truthyTime : Option Nat → Option Nat
  | none => none
  | some 0 => none
  | some (t + 1) => some (t + 1)

/-- Oracle for `Date.now()`: `tau k` is the value returned by the `k`-th
call made so far.  Wall-clock nondeterminism is captured by quantifying
over `tau`. -/
structure Clock where
  tau : Nat → Nat
  idx : Nat

/-- One `Date.now()` call: read the oracle and advance it. -/
def Clock.now (c : Clock) : Nat × Clock :=
  (c.tau c.idx, ⟨c.tau, c.idx + 1⟩)

/-- The external chess.js game object: its current position plus the undo
stack.  `game.move` pushes, `game.undo` pops (strict LIFO, exactly the
collaborator contract). -/
structure Game (Pos : Type) where
  pos : Pos
  hist : List Pos

/-- `game.move(mv)`: mutate the position in place, remembering the previous
position for `undo`. -/
def Game.move {Pos : Type} (R : CRules Pos) (g : Game Pos) (mv : Move) : Game Pos :=
  ⟨R.applyMove g.pos mv, g.pos :: g.hist⟩

/-- `game.undo()`: revert exactly the most recently applied move (no-op on an
empty history, as in chess.js). -/
def Game.undo {Pos : Type} : Game Pos → Game Pos
  | ⟨p, []⟩ => ⟨p, []⟩
  | ⟨_, q :: h⟩ => ⟨q, h⟩

/-- Result of one `minimaxSafe` call: returned score, the game object after
the call, the budget object after the call, the clock after the call. -/
structure SearchRes (Pos : Type) where
  val : XScore
  game : Game Pos
  st : SState
  clk : Clock

/-- The maximizing sibling loop of `minimaxSafe`: apply each move, recurse
(`recur` is `minimaxSafe` at depth − 1 with the flag flipped), undo
unconditionally, update the running maximum and `alpha`, and break on
`alpha >= beta`. -/
def loopMax {Pos : Type} (recur : Game Pos → XScore → XScore → SState → Clock → SearchRes Pos)
    (R : CRules Pos) :
    List Move → Game Pos → SState → Clock → XScore → XScore → XScore → SearchRes Pos
  | [], g, s, c, best, _, _ => ⟨best, g, s, c⟩
  | mv :: rest, g, s, c, best, alpha, beta =>
    let g1 := Game.move R g mv
    let r := recur g1 alpha beta s c
    let g2 := Game.undo r.game
    let best' := if XScore.ltb best r.val then r.val else best
    let alpha' := if XScore.ltb alpha r.val then r.val else alpha
    if XScore.geb alpha' beta then ⟨best', g2, r.st, r.clk⟩
    else loopMax recur R rest g2 r.st r.clk best' alpha' beta

/-- The minimizing sibling loop of `minimaxSafe`: symmetric to `loopMax`,
tracking the running minimum and lowering `beta`. -/
def loopMin {Pos : Type} (recur : Game Pos → XScore → XScore → SState → Clock → SearchRes Pos)
    (R : CRules Pos) :
    List Move → Game Pos → SState → Clock → XScore → XScore → XScore → SearchRes Pos
  | [], g, s, c, best, _, _ => ⟨best, g, s, c⟩
  | mv :: rest, g, s, c, best, alpha, beta =>
    let g1 := Game.move R g mv
    let r := recur g1 alpha beta s c
    let g2 := Game.undo r.game
    let best' := if XScore.ltb r.val best then r.val else best
    let beta' := if XScore.ltb r.val beta then r.val else beta
    if XScore.geb alpha beta' then ⟨best', g2, r.st, r.clk⟩
    else loopMin recur R rest g2 r.st r.clk best' alpha beta'

/-- `minimaxSafe(game, depth, alpha, beta, maximizing, state)` from the
source.  Checks in source order: pre-incremented node budget, deadline,
`depth === 0 || game.isGameOver()`, empty move list, then the alpha-beta
sibling loop for the side given by `maximizing`. -/
def minimaxSafe {Pos : Type} (R : CRules Pos) (g : Game Pos) (depth : Nat)
    (alpha beta : XScore) (maximizing : Bool) (s : SState) (c : Clock) : SearchRes Pos :=
  let s1 : SState := { s with nodes := s.nodes + 1 }
  if s1.nodeLimit ≤ s1.nodes then ⟨.fin (evaluate R g.pos), g, s1, c⟩
  else
    let tc : Bool × Clock :=
      match truthyTime s1.endTime with
      | some t => let nc := c.now; (t ≤ nc.1, nc.2)
      | none => (false, c)
    if tc.1 then ⟨.fin (evaluate R g.pos), g, s1, tc.2⟩
    else
      match depth with
      | 0 => ⟨.fin (evaluate R g.pos), g, s1, tc.2⟩
      | d + 1 =>
        if R.isGameOver g.pos then ⟨.fin (evaluate R g.pos), g, s1, tc.2⟩
        else
          match orderMovesSafe (safeMoves R g.pos) with
          | [] => ⟨.fin (evaluate R g.pos), g, s1, tc.2⟩
          | mv :: rest =>
            if maximizing then
              loopMax (fun g' a b s' c' => minimaxSafe R g' d a b false s' c')
                R (mv :: rest) g s1 tc.2 .negInf alpha beta
            else
              loopMin (fun g' a b s' c' => minimaxSafe R g' d a b true s' c')
                R (mv :: rest) g s1 tc.2 .posInf alpha beta

/-- One named difficulty profile from `DIFFICULTY_CONFIG`. -/
structure DifficultyConfig where
  depth : Nat
  nodeLimit : Nat
  randomness : Rat
  timeMs : Nat
  deriving DecidableEq, Repr

/-- The `beginner` profile from the source. -/
def beginnerCfg : DifficultyConfig := ⟨2, 8000, (35 : Rat) / 100, 800⟩

/-- The `moderate` profile from the source. -/
def moderateCfg : DifficultyConfig := ⟨3, 20000, (5 : Rat) / 100, 1500⟩

/-- The `advanced` profile from the source. -/
def advancedCfg : DifficultyConfig := ⟨4, 60000, 0, 3000⟩

/-- `DIFFICULTY_CONFIG[name]`: the three named profiles, `none` for any other
key. -/
def DIFFICULTY_CONFIG (difficulty : String) : Option DifficultyConfig :=
  if difficulty = "beginner" then some beginnerCfg
  else if difficulty = "moderate" then some moderateCfg
  else if difficulty = "advanced" then some advancedCfg
  else none

/-- `DIFFICULTY_CONFIG[difficulty] || DIFFICULTY_CONFIG.moderate` from
`findBestMove` (an object is always truthy, so the fallback fires exactly
when the name is unrecognized). -/
def lookupConfig (difficulty : String) : DifficultyConfig :=
  (DIFFICULTY_CONFIG difficulty).getD moderateCfg

/-- `Math.round` on the nonnegative rationals that occur here
(round half up). -/
def jsRound (x : Rat) : Int := Int.floor (x + 1 / 2)

/-- A root candidate paired with its score (`{ mv, score }`). -/
structure ScoredMove where
  mv : Move
  score : XScore
  deriving DecidableEq, Repr

/-- `chooseMoveWithRandomness(scoredMoves, randomness)` from the source.
`rand` is the `Math.random()` draw (in `[0,1)`).  Out-of-range indexing
(impossible for in-range draws) is a JS crash, modelled as `none`. -/
def chooseMoveWithRandomness (scoredMoves : List ScoredMove) (randomness : Rat)
    (rand : Rat) : Option Move :=
  if randomness = 0 ∨ scoredMoves.length ≤ 1 then
    scoredMoves[0]?.map (·.mv)
  else
    let maxIndex : Int := max 1 (jsRound ((scoredMoves.length : Rat) * randomness)) - 1
    let idx : Int := Int.floor (rand * ((maxIndex : Rat) + 1))
    if idx < 0 then none
    else scoredMoves[idx.toNat]?.map (·.mv)

/-- The immediate-mate-detection loop of `findBestMove`: apply each ordered
root move, test checkmate, undo, and return the first mating move found. -/
def mateShortcut {Pos : Type} (R : CRules Pos) : List Move → Game Pos → Option Move × Game Pos
  | [], g => (none, g)
  | mv :: rest, g =>
    let g1 := Game.move R g mv
    if R.isCheckmate g1.pos then (some mv, Game.undo g1)
    else mateShortcut R rest (Game.undo g1)

/-- Result of one depth iteration's root-move loop: the incumbent move and
score, plus game/budget/clock state. -/
structure LoopRes (Pos : Type) where
  best : Move
  bestEval : XScore
  game : Game Pos
  st : SState
  clk : Clock

/-- The inner root-move loop of `findBestMove` at one depth: apply each root
move, search with `minimaxSafe(game, d - 1, -Infinity, Infinity, true, state)`,
undo, keep the minimum (the engine plays the minimizing side at the root),
and break when the deadline has passed. -/
def rootMovesLoop {Pos : Type} (R : CRules Pos) :
    List Move → Nat → Game Pos → SState → Clock → Move → XScore → LoopRes Pos
  | [], _, g, s, c, db, dbe => ⟨db, dbe, g, s, c⟩
  | mv :: rest, cd, g, s, c, db, dbe =>
    let g1 := Game.move R g mv
    let r := minimaxSafe R g1 cd .negInf .posInf true s c
    let g2 := Game.undo r.game
    let next := if XScore.ltb r.val dbe then (mv, r.val) else (db, dbe)
    match truthyTime r.st.endTime with
    | some t =>
      let nc := r.clk.now
      if t ≤ nc.1 then ⟨next.1, next.2, g2, r.st, nc.2⟩
      else rootMovesLoop R rest cd g2 r.st nc.2 next.1 next.2
    | none => rootMovesLoop R rest cd g2 r.st r.clk next.1 next.2

/-- Result of the iterative-deepening loop. -/
structure IdRes (Pos : Type) where
  best : Move
  bestEval : XScore
  game : Game Pos
  clk : Clock

/-- The iterative-deepening loop of `findBestMove`:
`for (let d = 1; d <= cfg.depth; d++)` with a fresh budget object per depth,
seeding each depth's incumbents from the previous completed depth, and
breaking between depths when the deadline has passed.  `iters` counts the
remaining iterations, `d` is the current JS loop variable. -/
def idLoop {Pos : Type} (R : CRules Pos) (cfg : DifficultyConfig) (moves : List Move) :
    Nat → Nat → Option Nat → Game Pos → Clock → Move → XScore → IdRes Pos
  | 0, _, _, g, c, best, bestEval => ⟨best, bestEval, g, c⟩
  | iters + 1, d, endTime, g, c, best, bestEval =>
    let s0 : SState := ⟨0, cfg.nodeLimit, endTime⟩
    let r := rootMovesLoop R moves (d - 1) g s0 c best bestEval
    match truthyTime endTime with
    | some t =>
      let nc := r.clk.now
      if t ≤ nc.1 then ⟨r.best, r.bestEval, r.game, nc.2⟩
      else idLoop R cfg moves iters (d + 1) endTime r.game nc.2 r.best r.bestEval
    | none => idLoop R cfg moves iters (d + 1) endTime r.game r.clk r.best r.bestEval

/-- `cfg.timeMs ? Date.now() + cfg.timeMs : null` from `findBestMove`
(a `Date.now()` call is made only when `timeMs` is truthy). -/
def mkEndTime (timeMs : Nat) (c : Clock) : Option Nat × Clock :=
  if timeMs = 0 then (none, c)
  else
    let nc := c.now
    (some (nc.1 + timeMs), nc.2)

/-- Result of one `findBestMove` call: the chosen move (or `null`), the game
object after the call, the clock after the call. -/
structure RootRes (Pos : Type) where
  move : Option Move
  game : Game Pos
  clk : Clock

/-- `findBestMove(game, difficulty = "moderate")` from the source: null on
checkmate/draw, config lookup with moderate fallback, ordered root moves
(null when empty), immediate-mate shortcut, iterative deepening, and the
final randomized pick — invoked, as in the source, on a two-element list
holding the same best move twice. -/
def findBestMove {Pos : Type} (R : CRules Pos) (g : Game Pos) (difficulty : String)
    (rand : Rat) (c : Clock) : RootRes Pos :=
  if R.isCheckmate g.pos || R.isDraw g.pos then ⟨none, g, c⟩
  else
    let cfg := lookupConfig difficulty
    match orderMovesSafe (safeMoves R g.pos) with
    | [] => ⟨none, g, c⟩
    | m0 :: ms =>
      match mateShortcut R (m0 :: ms) g with
      | (some mv, g1) => ⟨some mv, g1, c⟩
      | (none, g1) =>
        let et := mkEndTime cfg.timeMs c
        let r := idLoop R cfg (m0 :: ms) cfg.depth 1 et.1 g1 et.2 m0 .posInf
        ⟨chooseMoveWithRandomness [⟨r.best, r.bestEval⟩, ⟨r.best, r.bestEval⟩]
           cfg.randomness rand, r.game, r.clk⟩

/-- `findBestMoveB(game)` from the source: the legacy export, pinned to the
moderate settings. -/
def findBestMoveB {Pos : Type} (R : CRules Pos) (g : Game Pos) (rand : Rat)
    (c : Clock) : RootRes Pos :=
  findBestMove R g "moderate" rand c

/-- The back-rank layout shared by both sides at the chess start position
(rook, knight, bishop, queen, king, bishop, knight, rook). -/
def backRank (color : Color) (c : Nat) : Option CPiece :=
  match c with
  | 0 => some ⟨.r, color⟩
  | 1 => some ⟨.n, color⟩
  | 2 => some ⟨.b, color⟩
  | 3 => some ⟨.q, color⟩
  | 4 => some ⟨.k, color⟩
  | 5 => some ⟨.b, color⟩
  | 6 => some ⟨.n, color⟩
  | 7 => some ⟨.r, color⟩
  | _ => none

/-- The chess start board in chess.js `game.board()` orientation: row 0 is
rank 8 (black's back rank), row 7 is rank 1 (white's back rank). -/
def startBoard (r c : Nat) : Option CPiece :=
  match r with
  | 0 => backRank Color.b c
  | 1 => if c < 8 then some ⟨.p, Color.b⟩ else none
  | 6 => if c < 8 then some ⟨.p, Color.w⟩ else none
  | 7 => backRank Color.w c
  | _ => none

/-- A quiet (non-capturing, non-promoting) verbose move record. -/
def quietMove (pt : PieceT) (f t s : String) : Move := ⟨f, t, pt, none, none, s⟩

/-- The 20 legal moves of the chess start position (16 pawn moves, 4 knight
moves), as verbose move records.  `evaluate`'s mobility term only reads the
length of this list. -/
def startMoves : List Move :=
  [quietMove .p "a2" "a3" "a3", quietMove .p "a2" "a4" "a4",
   quietMove .p "b2" "b3" "b3", quietMove .p "b2" "b4" "b4",
   quietMove .p "c2" "c3" "c3", quietMove .p "c2" "c4" "c4",
   quietMove .p "d2" "d3" "d3", quietMove .p "d2" "d4" "d4",
   quietMove .p "e2" "e3" "e3", quietMove .p "e2" "e4" "e4",
   quietMove .p "f2" "f3" "f3", quietMove .p "f2" "f4" "f4",
   quietMove .p "g2" "g3" "g3", quietMove .p "g2" "g4" "g4",
   quietMove .p "h2" "h3" "h3", quietMove .p "h2" "h4" "h4",
   quietMove .n "b1" "a3" "Na3", quietMove .n "b1" "c3" "Nc3",
   quietMove .n "g1" "f3" "Nf3", quietMove .n "g1" "h3" "Nh3"]

/-- A concrete collaborator frozen at the chess start position: not
checkmate, not a draw, white to move, the standard start board, the 20
standard legal moves, no repetition method exposed.  (`applyMove` never
changes the single abstract position; only the entry state matters for the
claims instantiated on it.) -/
def startRules : CRules Unit where
  isCheckmate := fun _ => false
  isDraw := fun _ => false
  isGameOver := fun _ => false
  turn := fun _ => Color.w
  board := fun _ => startBoard
  movesVerbose := fun _ => some startMoves
  applyMove := fun p _ => p
  threefoldApi := .missing
  fen := fun _ => "rnbqkbnr/pppppppp/8/8/8/8/PPPPPPPP/RNBQKBNR w KQkq - 0 1"

/-- The start-position game object. -/
def startGame : Game Unit := ⟨(), []⟩

/-- A deterministic clock oracle for witnesses. -/
def clk0 : Clock := ⟨fun _ => 0, 0⟩

/-- The single legal move of the `mateRules` collaborator: a queen move
delivering immediate checkmate. -/
def mateMove : Move := ⟨"h5", "f7", .q, some .p, none, "Qxf7#"⟩

/-- A concrete two-state collaborator with a mate in one: position `false`
is live with the single legal move `mateMove`; applying any move reaches
position `true`, which is checkmate with white to move (white has just been
mated there). -/
def mateRules : CRules Bool where
  isCheckmate := fun p => p
  isDraw := fun _ => false
  isGameOver := fun p => p
  turn := fun p => if p then Color.w else Color.b
  board := fun _ _ _ => none
  movesVerbose := fun p => if p then some [] else some [mateMove]
  applyMove := fun _ _ => true
  threefoldApi := .missing
  fen := fun p => if p then "mated" else "live"

/-- The `mateRules` game object at the live position. -/
def mateGame : Game Bool := ⟨false, []⟩


/-- `undo` exactly reverts the most recent `move` (the collaborator's strict
LIFO apply/undo contract). -/
theorem Game.undo_move {Pos : Type} (R : CRules Pos) (g : Game Pos) (mv : Move) :
    Game.undo (Game.move R g mv) = g := by
  cases g
  rfl

/-- If the child search restores the game object, so does the maximizing
sibling loop: each iteration's `undo` cancels its `move`, on the break path
as well as on the fall-through path. -/
theorem loopMax_game {Pos : Type}
    (recur : Game Pos → XScore → XScore → SState → Clock → SearchRes Pos)
    (R : CRules Pos) (hrec : ∀ g a b s c, (recur g a b s c).game = g) :
    ∀ (l : List Move) (g : Game Pos) (s : SState) (c : Clock) (best alpha beta : XScore),
      (loopMax recur R l g s c best alpha beta).game = g := by
  intro l
  induction l with
  | nil => intro g s c best alpha beta; rfl
  | cons mv rest ih =>
    intro g s c best alpha beta
    rw [loopMax]
    simp only [hrec, Game.undo_move]
    split <;> split <;> first | rfl | rw [ih]

/-- If the child search restores the game object, so does the minimizing
sibling loop. -/
theorem loopMin_game {Pos : Type}
    (recur : Game Pos → XScore → XScore → SState → Clock → SearchRes Pos)
    (R : CRules Pos) (hrec : ∀ g a b s c, (recur g a b s c).game = g) :
    ∀ (l : List Move) (g : Game Pos) (s : SState) (c : Clock) (best alpha beta : XScore),
      (loopMin recur R l g s c best alpha beta).game = g := by
  intro l
  induction l with
  | nil => intro g s c best alpha beta; rfl
  | cons mv rest ih =>
    intro g s c best alpha beta
    rw [loopMin]
    simp only [hrec, Game.undo_move]
    split <;> split <;> first | rfl | rw [ih]

/-- `minimaxSafe` returns the game object exactly as it received it, at
every depth, on every termination path. -/
theorem minimaxSafe_game {Pos : Type} (R : CRules Pos) :
    ∀ (depth : Nat) (g : Game Pos) (alpha beta : XScore) (maximizing : Bool)
      (s : SState) (c : Clock),
      (minimaxSafe R g depth alpha beta maximizing s c).game = g := by
  intro depth
  induction depth with
  | zero =>
    intro g alpha beta maximizing s c
    rw [minimaxSafe]
    dsimp only
    split
    · rfl
    · split
      · rfl
      · rfl
  | succ d ih =>
    intro g alpha beta maximizing s c
    rw [minimaxSafe]
    dsimp only
    split
    · rfl
    · split
      · rfl
      · split
        · rfl
        · split
          · rfl
          · split
            · exact loopMax_game _ R (fun g' a b s' c' => ih g' a b false s' c') _ g _ _ _ _ _
            · exact loopMin_game _ R (fun g' a b s' c' => ih g' a b true s' c') _ g _ _ _ _ _

/-- The immediate-mate loop computes the first ordered root move whose
application is checkmate, and hands the game object back unchanged. -/
theorem mateShortcut_eq {Pos : Type} (R : CRules Pos) :
    ∀ (l : List Move) (g : Game Pos),
      mateShortcut R l g =
        (l.find? (fun mv => R.isCheckmate (R.applyMove g.pos mv)), g) := by
  intro l
  induction l with
  | nil => intro g; rfl
  | cons mv rest ih =>
    intro g
    rw [mateShortcut]
    simp only [Game.undo_move]
    rw [List.find?]
    split
    · next h =>
      rw [show R.isCheckmate (R.applyMove g.pos mv) = true from h]
    · next h =>
      rw [ih]
      cases hc : R.isCheckmate (R.applyMove g.pos mv)
      · rfl
      · exact absurd hc h

/-- The per-depth root-move loop hands the game object back unchanged, on
the deadline-break path as well as on the fall-through path. -/
theorem rootMovesLoop_game {Pos : Type} (R : CRules Pos) :
    ∀ (l : List Move) (cd : Nat) (g : Game Pos) (s : SState) (c : Clock)
      (db : Move) (dbe : XScore),
      (rootMovesLoop R l cd g s c db dbe).game = g := by
  intro l
  induction l with
  | nil => intro cd g s c db dbe; rfl
  | cons mv rest ih =>
    intro cd g s c db dbe
    rw [rootMovesLoop]
    simp only [minimaxSafe_game, Game.undo_move]
    split
    · split
      · rfl
      · rw [ih]
    · rw [ih]

/-- The iterative-deepening loop hands the game object back unchanged. -/
theorem idLoop_game {Pos : Type} (R : CRules Pos) (cfg : DifficultyConfig)
    (moves : List Move) :
    ∀ (iters d : Nat) (endTime : Option Nat) (g : Game Pos) (c : Clock)
      (best : Move) (bestEval : XScore),
      (idLoop R cfg moves iters d endTime g c best bestEval).game = g := by
  intro iters
  induction iters with
  | zero => intro d endTime g c best bestEval; rfl
  | succ n ih =>
    intro d endTime g c best bestEval
    rw [idLoop]
    simp only [rootMovesLoop_game]
    split
    · split
      · rfl
      · rw [ih]
    · rw [ih]

/-- `findBestMove` hands the game object back unchanged on every return
path (null returns, mate shortcut, full search). -/
theorem findBestMove_game {Pos : Type} (R : CRules Pos) (g : Game Pos)
    (difficulty : String) (rand : Rat) (c : Clock) :
    (findBestMove R g difficulty rand c).game = g := by
  rw [findBestMove]
  split
  · rfl
  · split
    · rfl
    · rw [mateShortcut_eq]
      split
      · next heq =>
        rw [Prod.mk.injEq] at heq
        exact heq.2.symm
      · next heq =>
        rw [Prod.mk.injEq] at heq
        simp only [idLoop_game]
        exact heq.2.symm

/-- C1: for every position and every call to the search (`minimaxSafe` with
any depth, alpha, beta, maximizing flag and budget) and to `findBestMove`,
the position's externally observable state (in particular its serialized
form) is identical before and after the call: every applied exploratory move
is undone, including on alpha-beta pruning breaks and on budget-exceeded
returns.  The game object (position plus undo stack) comes back equal, hence
so does its serialization. -/
theorem claim1_apply_undo_balance {Pos : Type} (R : CRules Pos) (g : Game Pos) :
    (∀ (depth : Nat) (alpha beta : XScore) (maximizing : Bool) (s : SState) (c : Clock),
       (minimaxSafe R g depth alpha beta maximizing s c).game = g ∧
       R.fen (minimaxSafe R g depth alpha beta maximizing s c).game.pos = R.fen g.pos) ∧
    (∀ (difficulty : String) (rand : Rat) (c : Clock),
       (findBestMove R g difficulty rand c).game = g ∧
       R.fen (findBestMove R g difficulty rand c).game.pos = R.fen g.pos) := by
  constructor
  · intro depth alpha beta maximizing s c
    have h := minimaxSafe_game R depth g alpha beta maximizing s c
    exact ⟨h, by rw [h]⟩
  · intro difficulty rand c
    have h := findBestMove_game R g difficulty rand c
    exact ⟨h, by rw [h]⟩

/-- C7: calling the search with `depth = 0` returns exactly
`evaluate(position)`, for every position, budget state, alpha, beta and
maximizing flag (all three early-return branches and the depth branch yield
the static evaluation). -/
theorem claim7_depth_zero_is_evaluate {Pos : Type} (R : CRules Pos) (g : Game Pos)
    (alpha beta : XScore) (maximizing : Bool) (s : SState) (c : Clock) :
    (minimaxSafe R g 0 alpha beta maximizing s c).val = .fin (evaluate R g.pos) := by
  rw [minimaxSafe]
  split
  · rfl
  · split
    · dsimp only
      split
      · rfl
      · rfl
    · rfl

/-- C8: any call of `minimaxSafe` entered when the visited-node counter has
reached the ceiling (after its single pre-increment, `++state.nodes >=
state.nodeLimit`) returns `evaluate(position)` immediately: the game object,
the clock and the rest of the budget are untouched, no moves are explored
and no recursion happens; the counter grows by exactly one. -/
theorem claim8_node_budget_stops_search {Pos : Type} (R : CRules Pos) (g : Game Pos)
    (depth : Nat) (alpha beta : XScore) (maximizing : Bool) (s : SState) (c : Clock)
    (h : s.nodeLimit ≤ s.nodes + 1) :
    minimaxSafe R g depth alpha beta maximizing s c =
      ⟨.fin (evaluate R g.pos), g, { s with nodes := s.nodes + 1 }, c⟩ := by
  rw [minimaxSafe]
  split
  · rfl
  · next hn => exact absurd h (by simpa using hn)

/-- Witness for C8 at a concrete input: ceiling 3, counter already 5. -/
theorem claim8_witness :
    startRules.isCheckmate () = false ∧
    (3 : Nat) ≤ 5 + 1 ∧
    minimaxSafe startRules startGame 4 .negInf .posInf true ⟨5, 3, none⟩ clk0 =
      ⟨.fin (evaluate startRules ()), startGame, ⟨6, 3, none⟩, clk0⟩ :=
  ⟨rfl, by decide,
    claim8_node_budget_stops_search startRules startGame 4 .negInf .posInf true
      ⟨5, 3, none⟩ clk0 (by decide)⟩

/-- C9: on a position where the side to move is checkmated, `evaluate`
returns the mate sentinel, negative if the first player (White) is to move
and mated, positive if the second player (Black) is to move and mated. -/
theorem claim9_checkmate_sentinel {Pos : Type} (R : CRules Pos) (p : Pos)
    (h : R.isCheckmate p = true) :
    evaluate R p = if R.turn p = Color.w then -MATE_SCORE else MATE_SCORE := by
  rw [evaluate, if_pos h]

/-- Witness for C9 at a concrete input: the mated position of `mateRules`
has White to move, so the sentinel comes back negative. -/
theorem claim9_witness :
    mateRules.isCheckmate true = true ∧ evaluate mateRules true = -100000 :=
  ⟨rfl, by have h := claim9_checkmate_sentinel mateRules true rfl; simpa using h⟩

/-- C4 counterexample: `evaluate` at the initial starting position does NOT
return 0.  The material terms cancel, but the positional terms do not: for a
black piece the source computes `pst = -table[7 - r][c]` and then adds
`-(base + pst)`, so the mirrored table value is negated twice and black's
positional values enter with the same sign as white's. -/
theorem claim4_counterexample : evaluate startRules () ≠ 0 := by decide

/-- C4 amended: `evaluate` at the initial starting position returns −150:
twice the white piece-square sum (2 × (−95) = −190, by the double negation
described in `claim4_counterexample`) plus the side-to-move mobility bonus
(2 × 20 = +40). -/
theorem claim4_amended :
    evaluate startRules () = -150 ∧ (safeMoves startRules ()).length = 20 := by
  constructor
  · decide
  · decide

/-- Every pair in the sorted score-annotated list carries the heuristic
score of its move (the annotation was built that way and sorting only
permutes). -/
theorem snd_eq_score_of_mem_sorted {l : List Move} {pr : Move × Int}
    (h : pr ∈ (l.map (fun mv => (mv, moveOrderScore mv))).insertionSort pairGE) :
    pr.2 = moveOrderScore pr.1 := by
  have h2 : pr ∈ l.map (fun mv => (mv, moveOrderScore mv)) :=
    (List.perm_insertionSort pairGE _).subset h
  obtain ⟨mv, _, rfl⟩ := List.mem_map.1 h2
  rfl

/-- C6: `orderMovesSafe` returns a permutation of its input (equal
multiset), sorted non-increasing by the heuristic score
`10 × (material of captured piece, 0 if none) − material of moving piece`,
and stable: for every score value, the moves carrying that score appear in
exactly their input order. -/
theorem claim6_orderMovesSafe_spec (l : List Move) :
    (orderMovesSafe l).Perm l ∧
    (orderMovesSafe l).Pairwise (fun a b => moveOrderScore b ≤ moveOrderScore a) ∧
    (∀ s : Int, (orderMovesSafe l).filter (fun mv => decide (moveOrderScore mv = s)) =
       l.filter (fun mv => decide (moveOrderScore mv = s))) := by
  refine ⟨?_, ?_, ?_⟩
  · have hp := List.perm_insertionSort pairGE (l.map (fun mv => (mv, moveOrderScore mv)))
    have hm := hp.map Prod.fst
    rw [List.map_map,
      show (Prod.fst ∘ fun mv : Move => (mv, moveOrderScore mv)) = id from rfl,
      List.map_id] at hm
    exact hm
  · rw [orderMovesSafe, List.pairwise_map]
    refine List.Pairwise.imp_of_mem ?_ (List.sorted_insertionSort pairGE _)
    intro a b ha hb hr
    have ha2 := snd_eq_score_of_mem_sorted ha
    have hb2 := snd_eq_score_of_mem_sorted hb
    have hr2 : b.2 ≤ a.2 := hr
    rw [ha2, hb2] at hr2
    exact hr2
  · intro s
    have key : ((l.map (fun mv => (mv, moveOrderScore mv))).insertionSort pairGE).filter
          (fun pr => decide (pr.2 = s)) =
        (l.map (fun mv => (mv, moveOrderScore mv))).filter (fun pr => decide (pr.2 = s)) := by
      have hsub0 : List.Sublist ((l.map (fun mv => (mv, moveOrderScore mv))).filter
            (fun pr => decide (pr.2 = s))) (l.map (fun mv => (mv, moveOrderScore mv))) :=
        List.filter_sublist _
      have hpw : ((l.map (fun mv => (mv, moveOrderScore mv))).filter
            (fun pr => decide (pr.2 = s))).Pairwise pairGE := by
        apply List.pairwise_of_forall_mem_list
        intro a ha b hb
        have ha2 := (List.mem_filter.1 ha).2
        have hb2 := (List.mem_filter.1 hb).2
        simp only [decide_eq_true_eq] at ha2 hb2
        show b.2 ≤ a.2
        rw [ha2, hb2]
      have hsub : List.Sublist ((l.map (fun mv => (mv, moveOrderScore mv))).filter
            (fun pr => decide (pr.2 = s)))
          ((l.map (fun mv => (mv, moveOrderScore mv))).insertionSort pairGE) :=
        List.sublist_insertionSort hpw hsub0
      have hsub2 : List.Sublist ((l.map (fun mv => (mv, moveOrderScore mv))).filter
            (fun pr => decide (pr.2 = s)))
          (((l.map (fun mv => (mv, moveOrderScore mv))).insertionSort pairGE).filter
            (fun pr => decide (pr.2 = s))) := by
        have hh := hsub.filter (fun pr => decide (pr.2 = s))
        simpa [List.filter_filter] using hh
      have hlen := ((List.perm_insertionSort pairGE
          (l.map (fun mv => (mv, moveOrderScore mv)))).filter
          (fun pr => decide (pr.2 = s))).length_eq
      exact (hsub2.eq_of_length hlen.symm).symm
    rw [orderMovesSafe]
    rw [List.filter_map]
    have hcong : ((l.map (fun mv => (mv, moveOrderScore mv))).insertionSort pairGE).filter
          ((fun mv => decide (moveOrderScore mv = s)) ∘ Prod.fst) =
        ((l.map (fun mv => (mv, moveOrderScore mv))).insertionSort pairGE).filter
          (fun pr => decide (pr.2 = s)) := by
      apply List.filter_congr
      intro pr hpr
      simp [Function.comp, snd_eq_score_of_mem_sorted hpr]
    rw [hcong, key, List.filter_map, List.map_map,
      show ((fun pr : Move × Int => decide (pr.2 = s)) ∘ fun mv => (mv, moveOrderScore mv)) =
        (fun mv => decide (moveOrderScore mv = s)) from rfl,
      show (Prod.fst ∘ fun mv : Move => (mv, moveOrderScore mv)) = id from rfl,
      List.map_id]

/-- An unrecognized difficulty name falls back to the moderate profile. -/
theorem lookupConfig_unknown (name : String) (h1 : name ≠ "beginner")
    (h2 : name ≠ "moderate") (h3 : name ≠ "advanced") :
    lookupConfig name = lookupConfig "moderate" := by
  rw [lookupConfig, lookupConfig, DIFFICULTY_CONFIG, DIFFICULTY_CONFIG]
  rw [if_neg h1, if_neg h2, if_neg h3, if_neg (by decide), if_pos rfl]
  rfl

/-- C10: the legacy export `findBestMoveB(game)` returns exactly
`findBestMove(game, "moderate")`, and calling `findBestMove` with an
unrecognized difficulty name also uses the moderate profile. -/
theorem claim10_legacy_moderate {Pos : Type} (R : CRules Pos) (g : Game Pos)
    (rand : Rat) (c : Clock) (name : String) (h1 : name ≠ "beginner")
    (h2 : name ≠ "moderate") (h3 : name ≠ "advanced") :
    findBestMoveB R g rand c = findBestMove R g "moderate" rand c ∧
    findBestMove R g name rand c = findBestMove R g "moderate" rand c := by
  constructor
  · rfl
  · rw [findBestMove, findBestMove, lookupConfig_unknown name h1 h2 h3]

/-- Witness for C10 at a concrete input, with the unrecognized name
`"expert"`. -/
theorem claim10_witness :
    (("expert" : String) ≠ "beginner" ∧ ("expert" : String) ≠ "moderate" ∧
      ("expert" : String) ≠ "advanced") ∧
    findBestMoveB startRules startGame 0 clk0 =
      findBestMove startRules startGame "moderate" 0 clk0 ∧
    findBestMove startRules startGame "expert" 0 clk0 =
      findBestMove startRules startGame "moderate" 0 clk0 :=
  ⟨⟨by decide, by decide, by decide⟩,
    claim10_legacy_moderate startRules startGame 0 clk0 "expert"
      (by decide) (by decide) (by decide)⟩

/-- Every profile the lookup can produce has a randomness fraction in
`[0, 1]` (0.35, 0.05 or 0). -/
theorem lookupConfig_randomness_bounds (difficulty : String) :
    0 ≤ (lookupConfig difficulty).randomness ∧ (lookupConfig difficulty).randomness ≤ 1 := by
  rw [lookupConfig, DIFFICULTY_CONFIG]
  split
  · constructor <;> norm_num [beginnerCfg]
  · split
    · constructor <;> norm_num [moderateCfg]
    · split
      · constructor <;> norm_num [advancedCfg]
      · constructor <;> norm_num [moderateCfg]

/-- Indexing a two-element repeated list at 0 or 1 yields the repeated
element. -/
theorem pair_access (x : ScoredMove) (n : Nat) (hn : n ≤ 1) :
    ([x, x] : List ScoredMove)[n]?.map (fun sm => sm.mv) = some x.mv := by
  interval_cases n <;> rfl

/-- The final randomized pick, invoked as in the source on a two-element
list holding the same move twice, always returns that move, for every
randomness fraction in `[0, 1]` and every random draw in `[0, 1)`:
`maxIndex = max(1, round(2 × randomness)) − 1 ≤ 1` and
`idx = floor(rand × (maxIndex + 1)) ≤ maxIndex`, and both slots hold `x`. -/
theorem chooseMoveWithRandomness_pair (x : ScoredMove) (randomness rand : Rat)
    (_hr0 : 0 ≤ randomness) (hr1 : randomness ≤ 1) (h0 : 0 ≤ rand) (h1 : rand < 1) :
    chooseMoveWithRandomness [x, x] randomness rand = some x.mv := by
  rw [chooseMoveWithRandomness]
  split
  · rfl
  · dsimp only
    have hJle : jsRound ((([x, x] : List ScoredMove).length : Rat) * randomness) ≤ 2 := by
      rw [jsRound]
      have hlen : (([x, x] : List ScoredMove).length : Rat) = 2 := by norm_num
      rw [hlen]
      have hlt : (2 : Rat) * randomness + 1 / 2 < ((3 : Int) : Rat) := by
        push_cast
        linarith
      have hf := Int.floor_lt.2 hlt
      omega
    set J := jsRound ((([x, x] : List ScoredMove).length : Rat) * randomness) with hJ
    have hM0 : (0 : Int) ≤ max 1 J - 1 := by
      have := le_max_left 1 J
      omega
    have hM1 : max 1 J - 1 ≤ 1 := by
      have h2 : max 1 J ≤ 2 := max_le (by omega) hJle
      omega
    have hX0 : (0 : Rat) ≤ ((max 1 J - 1 : Int) : Rat) := by exact_mod_cast hM0
    have hX1 : ((max 1 J - 1 : Int) : Rat) ≤ 1 := by exact_mod_cast hM1
    have hidx0 : 0 ≤ Int.floor (rand * (((max 1 J - 1 : Int) : Rat) + 1)) :=
      Int.floor_nonneg.2 (mul_nonneg h0 (by linarith))
    have hidxlt : Int.floor (rand * (((max 1 J - 1 : Int) : Rat) + 1)) < 2 := by
      rw [Int.floor_lt]
      have hpos : (0 : Rat) < ((max 1 J - 1 : Int) : Rat) + 1 := by linarith
      have hcalc : rand * (((max 1 J - 1 : Int) : Rat) + 1) < ((max 1 J - 1 : Int) : Rat) + 1 := by
        have := mul_lt_mul_of_pos_right h1 hpos
        simpa using this
      rw [show (((2 : Int)) : Rat) = (2 : Rat) from by norm_num]
      linarith
    rw [if_neg (not_lt.2 hidx0)]
    exact pair_access x _ (by omega)

/-- `orderMovesSafe` permutes its input (helper shared by several proofs). -/
theorem orderMovesSafe_perm (l : List Move) : (orderMovesSafe l).Perm l := by
  have hp := List.perm_insertionSort pairGE (l.map (fun mv => (mv, moveOrderScore mv)))
  have hm := hp.map Prod.fst
  rw [List.map_map,
    show (Prod.fst ∘ fun mv : Move => (mv, moveOrderScore mv)) = id from rfl,
    List.map_id] at hm
  exact hm

/-- The ordered move list is empty only when the input was empty. -/
theorem eq_nil_of_orderMovesSafe_eq_nil {l : List Move} (h : orderMovesSafe l = []) :
    l = [] := by
  have hp := orderMovesSafe_perm l
  rw [h] at hp
  exact hp.symm.eq_nil

/-- C2: the move returned by `findBestMove` is independent of the
pseudo-random source.  The final randomized pick receives a two-element list
containing the same single best move twice, so two runs differing only in
their random draws (both in `[0,1)`) return the same result. -/
theorem claim2_random_independent {Pos : Type} (R : CRules Pos) (g : Game Pos)
    (difficulty : String) (c : Clock) (rand1 rand2 : Rat)
    (h10 : 0 ≤ rand1) (h11 : rand1 < 1) (h20 : 0 ≤ rand2) (h21 : rand2 < 1) :
    findBestMove R g difficulty rand1 c = findBestMove R g difficulty rand2 c := by
  obtain ⟨hr0, hr1⟩ := lookupConfig_randomness_bounds difficulty
  rw [findBestMove, findBestMove]
  by_cases h : (R.isCheckmate g.pos || R.isDraw g.pos) = true
  · rw [if_pos h, if_pos h]
  · rw [if_neg h, if_neg h]
    cases hO : orderMovesSafe (safeMoves R g.pos) with
    | nil => rfl
    | cons m0 ms =>
      dsimp only
      rcases hMS : mateShortcut R (m0 :: ms) g with ⟨omv, g1⟩
      cases omv with
      | some mv => rfl
      | none =>
        dsimp only
        rw [chooseMoveWithRandomness_pair _ _ _ hr0 hr1 h10 h11,
          chooseMoveWithRandomness_pair _ _ _ hr0 hr1 h20 h21]

/-- Witness for C2 at a concrete input: two runs with draws 0 and 1/2. -/
theorem claim2_witness :
    ((0 : Rat) ≤ 0 ∧ (0 : Rat) < 1 ∧ (0 : Rat) ≤ 1 / 2 ∧ (1 / 2 : Rat) < 1) ∧
    findBestMove startRules startGame "moderate" 0 clk0 =
      findBestMove startRules startGame "moderate" (1 / 2) clk0 :=
  ⟨⟨le_refl 0, by norm_num, by norm_num, by norm_num⟩,
    claim2_random_independent startRules startGame "moderate" clk0 0 (1 / 2)
      (by norm_num) (by norm_num) (by norm_num) (by norm_num)⟩

/-- C3: `findBestMove` returns null exactly when the position on entry is
checkmate or a draw, provided the collaborator is chess-consistent at the
entry position (no legal moves only at checkmate/draw positions, as for a
real rules engine where stalemate is a draw) and the random draw is in
`[0,1)`; in every other case it returns a non-null move. -/
theorem claim3_null_iff_terminal {Pos : Type} (R : CRules Pos) (g : Game Pos)
    (difficulty : String) (rand : Rat) (c : Clock)
    (h0 : 0 ≤ rand) (h1 : rand < 1)
    (hchess : safeMoves R g.pos = [] → R.isCheckmate g.pos = true ∨ R.isDraw g.pos = true) :
    (findBestMove R g difficulty rand c).move = none ↔
      (R.isCheckmate g.pos = true ∨ R.isDraw g.pos = true) := by
  obtain ⟨hr0, hr1⟩ := lookupConfig_randomness_bounds difficulty
  by_cases h : (R.isCheckmate g.pos || R.isDraw g.pos) = true
  · rw [findBestMove, if_pos h]
    simp only [Bool.or_eq_true] at h
    exact ⟨fun _ => h, fun _ => rfl⟩
  · rw [findBestMove, if_neg h]
    simp only [Bool.or_eq_true] at h
    constructor
    · intro hnone
      cases hO : orderMovesSafe (safeMoves R g.pos) with
      | nil => exact hchess (eq_nil_of_orderMovesSafe_eq_nil hO)
      | cons m0 ms =>
        exfalso
        rw [hO] at hnone
        dsimp only at hnone
        rcases hMS : mateShortcut R (m0 :: ms) g with ⟨omv, g1⟩
        cases omv with
        | some mv =>
          rw [hMS] at hnone
          exact Option.some_ne_none mv hnone
        | none =>
          rw [hMS] at hnone
          dsimp only at hnone
          rw [chooseMoveWithRandomness_pair _ _ _ hr0 hr1 h0 h1] at hnone
          exact Option.some_ne_none _ hnone
    · intro hcd
      exact absurd hcd h

/-- Witness for C3 at a concrete input: the start position is not terminal,
so the result is not null. -/
theorem claim3_witness :
    ((0 : Rat) ≤ 0 ∧ (0 : Rat) < 1) ∧
    ((findBestMove startRules startGame "moderate" 0 clk0).move = none ↔
      (startRules.isCheckmate () = true ∨ startRules.isDraw () = true)) :=
  ⟨⟨le_refl 0, by norm_num⟩,
    claim3_null_iff_terminal startRules startGame "moderate" 0 clk0
      (le_refl 0) (by norm_num) (fun hh => absurd hh (by decide))⟩

/-- C5: on a non-terminal position where some ordered root move delivers
immediate checkmate, `findBestMove` returns the first such move of the
ordered root move list, at every difficulty tier, via the mate shortcut that
runs before any depth-limited search. -/
theorem claim5_mate_in_one {Pos : Type} (R : CRules Pos) (g : Game Pos)
    (difficulty : String) (rand : Rat) (c : Clock) (m : Move)
    (hterm : ¬(R.isCheckmate g.pos = true ∨ R.isDraw g.pos = true))
    (hfind : (orderMovesSafe (safeMoves R g.pos)).find?
        (fun mv => R.isCheckmate (R.applyMove g.pos mv)) = some m) :
    (findBestMove R g difficulty rand c).move = some m ∧
    R.isCheckmate (R.applyMove g.pos m) = true := by
  have hcond : ¬(R.isCheckmate g.pos || R.isDraw g.pos) = true := by
    simp only [Bool.or_eq_true]
    exact hterm
  have hmate : R.isCheckmate (R.applyMove g.pos m) = true := by
    have h5 := List.find?_some hfind
    simpa using h5
  refine ⟨?_, hmate⟩
  rw [findBestMove, if_neg hcond]
  cases hO : orderMovesSafe (safeMoves R g.pos) with
  | nil =>
    rw [hO] at hfind
    exact absurd hfind (by simp)
  | cons m0 ms =>
    rw [hO] at hfind
    dsimp only
    rw [mateShortcut_eq, hfind]

/-- Witness for C5 at a concrete input: the `mateRules` live position has
the single mating move `mateMove`, returned at the beginner tier. -/
theorem claim5_witness :
    (¬(mateRules.isCheckmate mateGame.pos = true ∨ mateRules.isDraw mateGame.pos = true)) ∧
    (orderMovesSafe (safeMoves mateRules mateGame.pos)).find?
        (fun mv => mateRules.isCheckmate (mateRules.applyMove mateGame.pos mv)) =
      some mateMove ∧
    (findBestMove mateRules mateGame "beginner" 0 clk0).move = some mateMove ∧
    mateRules.isCheckmate (mateRules.applyMove mateGame.pos mateMove) = true :=
  ⟨by decide, by decide,
    claim5_mate_in_one mateRules mateGame "beginner" 0 clk0 mateMove
      (by decide) (by decide)⟩
